/-
Verification of the PIM matrix-multiply backend:
instruction encoding, disassembly, address translation, and lowering.

The definitions below are shallow embeddings of the C++ sources:
  src/compiler/PIMInstruction.cpp / PIMInstruction.h
  include/PIMInstructionSet.h
  src/compiler/PIMBackend.cpp
  src/compiler/MemoryMapper.cpp
Machine unsigned values are modelled as Nat; the C++ enum PIMOpcode is
modelled by its underlying unsigned value (a C enum variable can hold
values outside the enumerators, which the disassembler must tolerate).
-/
import Mathlib

/-- Opcode values of enum PIMOpcode (PIMInstructionSet.h). -/
abbrev PIM_NOP : Nat := 0
abbrev PIM_LOAD : Nat := 1
abbrev PIM_STORE : Nat := 2
abbrev PIM_MOVE : Nat := 3
abbrev PIM_ADD : Nat := 4
abbrev PIM_SUB : Nat := 5
abbrev PIM_MUL : Nat := 6
abbrev PIM_DIV : Nat := 7
abbrev PIM_AND : Nat := 8
abbrev PIM_OR : Nat := 9
abbrev PIM_XOR : Nat := 10
abbrev PIM_NOT : Nat := 11
abbrev PIM_SHL : Nat := 12
abbrev PIM_SHR : Nat := 13
abbrev PIM_JUMP : Nat := 14
abbrev PIM_JUMPZ : Nat := 15
abbrev PIM_JUMPNZ : Nat := 16
abbrev PIM_CONFIG : Nat := 17

/-- Instruction record (PIMInstruction.h): opcode, dest, src1, src2, imm.
The constructor performs no validation (PIMInstruction.cpp lines 10-11),
so every field is an arbitrary unsigned value. -/
structure PIMInstruction where
  opcode : Nat
  dest : Nat
  src1 : Nat
  src2 : Nat
  imm : Nat
deriving DecidableEq, Repr

/-- PIMInstruction::toBinary (PIMInstruction.cpp lines 36-53): pack the
fields into one 32-bit word by mask-shift-or, exactly as the source. -/
def PIMInstruction.toBinary (ins : PIMInstruction) : Nat :=
  ((ins.opcode &&& 0x3F) <<< 26) |||
  ((ins.dest &&& 0xFF) <<< 18) |||
  ((ins.src1 &&& 0xFF) <<< 10) |||
  ((ins.src2 &&& 0xFF) <<< 2) |||
  (ins.imm &&& 0x3)

/-- Bit-layout constants of struct PIMInstructionFormat (PIMInstructionSet.h). -/
def PIMInstructionFormat.OPCODE_SHIFT : Nat := 26
def PIMInstructionFormat.OPCODE_MASK : Nat := 0x3F
def PIMInstructionFormat.DEST_SHIFT : Nat := 18
def PIMInstructionFormat.DEST_MASK : Nat := 0xFF
def PIMInstructionFormat.SRC1_SHIFT : Nat := 10
def PIMInstructionFormat.SRC1_MASK : Nat := 0xFF
def PIMInstructionFormat.SRC2_SHIFT : Nat := 2
def PIMInstructionFormat.SRC2_MASK : Nat := 0xFF
def PIMInstructionFormat.IMM_SHIFT : Nat := 0
def PIMInstructionFormat.IMM_MASK : Nat := 0x3

/-- PIMInstructionFormat::encode (PIMInstructionSet.h lines 103-109). -/
def PIMInstructionFormat.encode (opcode dest src1 src2 imm : Nat) : Nat :=
  ((opcode &&& OPCODE_MASK) <<< OPCODE_SHIFT) |||
  ((dest &&& DEST_MASK) <<< DEST_SHIFT) |||
  ((src1 &&& SRC1_MASK) <<< SRC1_SHIFT) |||
  ((src2 &&& SRC2_MASK) <<< SRC2_SHIFT) |||
  ((imm &&& IMM_MASK) <<< IMM_SHIFT)

/-- PIMInstructionFormat::decodeOpcode (PIMInstructionSet.h). -/
def PIMInstructionFormat.decodeOpcode (instruction : Nat) : Nat :=
  (instruction >>> OPCODE_SHIFT) &&& OPCODE_MASK

/-- PIMInstructionFormat::decodeDest (PIMInstructionSet.h). -/
def PIMInstructionFormat.decodeDest (instruction : Nat) : Nat :=
  (instruction >>> DEST_SHIFT) &&& DEST_MASK

/-- PIMInstructionFormat::decodeSrc1 (PIMInstructionSet.h). -/
def PIMInstructionFormat.decodeSrc1 (instruction : Nat) : Nat :=
  (instruction >>> SRC1_SHIFT) &&& SRC1_MASK

/-- PIMInstructionFormat::decodeSrc2 (PIMInstructionSet.h). -/
def PIMInstructionFormat.decodeSrc2 (instruction : Nat) : Nat :=
  (instruction >>> SRC2_SHIFT) &&& SRC2_MASK

/-- PIMInstructionFormat::decodeImm (PIMInstructionSet.h). -/
def PIMInstructionFormat.decodeImm (instruction : Nat) : Nat :=
  (instruction >>> IMM_SHIFT) &&& IMM_MASK

/-- Masking with the 6-bit mask is reduction mod 64. -/
theorem and_63_eq_mod (x : Nat) : x &&& 63 = x % 64 := by
  have h := Nat.and_pow_two_sub_one_eq_mod x 6
  norm_num at h
  exact h

/-- Masking with the 8-bit mask is reduction mod 256. -/
theorem and_255_eq_mod (x : Nat) : x &&& 255 = x % 256 := by
  have h := Nat.and_pow_two_sub_one_eq_mod x 8
  norm_num at h
  exact h

/-- Masking with the 2-bit mask is reduction mod 4. -/
theorem and_3_eq_mod (x : Nat) : x &&& 3 = x % 4 := by
  have h := Nat.and_pow_two_sub_one_eq_mod x 2
  norm_num at h
  exact h

/-- Bitwise or of a shifted value with a small value is addition. -/
theorem lor_mul_pow_add (k a b : Nat) (hb : b < 2 ^ k) :
    a * 2 ^ k ||| b = a * 2 ^ k + b := by
  rw [Nat.mul_comm a (2 ^ k)]
  exact (Nat.mul_add_lt_is_or hb a).symm

/-- Arithmetic form of the packed word produced by toBinary. -/
theorem toBinary_arith (op d s1 s2 im : Nat) :
    PIMInstruction.toBinary ⟨op, d, s1, s2, im⟩ =
      (op % 64) * 2 ^ 26 + ((d % 256) * 2 ^ 18 +
        ((s1 % 256) * 2 ^ 10 + ((s2 % 256) * 2 ^ 2 + im % 4))) := by
  show ((op &&& 0x3F) <<< 26) ||| ((d &&& 0xFF) <<< 18) |||
      ((s1 &&& 0xFF) <<< 10) ||| ((s2 &&& 0xFF) <<< 2) ||| (im &&& 0x3) = _
  rw [and_63_eq_mod, and_255_eq_mod, and_255_eq_mod, and_255_eq_mod, and_3_eq_mod]
  simp only [Nat.shiftLeft_eq, Nat.or_assoc]
  have h4 : im % 4 < 2 ^ 2 := by omega
  have h10 : (s2 % 256) * 2 ^ 2 + im % 4 < 2 ^ 10 := by omega
  have h18 : (s1 % 256) * 2 ^ 10 + ((s2 % 256) * 2 ^ 2 + im % 4) < 2 ^ 18 := by omega
  have h26 : (d % 256) * 2 ^ 18 + ((s1 % 256) * 2 ^ 10 + ((s2 % 256) * 2 ^ 2 + im % 4))
      < 2 ^ 26 := by omega
  rw [lor_mul_pow_add 2 (s2 % 256) (im % 4) h4]
  rw [lor_mul_pow_add 10 (s1 % 256) _ h10]
  rw [lor_mul_pow_add 18 (d % 256) _ h18]
  rw [lor_mul_pow_add 26 (op % 64) _ h26]

/-- C4: for every instruction with arbitrary unsigned field values, toBinary
equals (opcode mod 64)*2^26 + (dest mod 256)*2^18 + (src1 mod 256)*2^10 +
(src2 mod 256)*2^2 + (imm mod 4); no validation happens at construction, so
two instructions whose fields agree modulo the field widths encode to the
identical word. -/
theorem toBinary_packed_word (op d s1 s2 im : Nat) :
    PIMInstruction.toBinary ⟨op, d, s1, s2, im⟩ =
      (op % 64) * 2 ^ 26 + (d % 256) * 2 ^ 18 + (s1 % 256) * 2 ^ 10 +
        (s2 % 256) * 2 ^ 2 + im % 4 ∧
    ∀ op2 d2 s12 s22 im2 : Nat,
      op2 % 64 = op % 64 → d2 % 256 = d % 256 → s12 % 256 = s1 % 256 →
      s22 % 256 = s2 % 256 → im2 % 4 = im % 4 →
      PIMInstruction.toBinary ⟨op2, d2, s12, s22, im2⟩ =
        PIMInstruction.toBinary ⟨op, d, s1, s2, im⟩ := by
  constructor
  · rw [toBinary_arith]; ring
  · intro op2 d2 s12 s22 im2 h1 h2 h3 h4 h5
    rw [toBinary_arith, toBinary_arith, h1, h2, h3, h4, h5]

/-- Witness for C4 at concrete out-of-range fields: 70 mod 64 = 6,
300 mod 256 = 44, 7 mod 4 = 3. -/
theorem toBinary_packed_word_witness :
    PIMInstruction.toBinary ⟨70, 300, 5, 6, 7⟩ =
      (70 % 64) * 2 ^ 26 + (300 % 256) * 2 ^ 18 + (5 % 256) * 2 ^ 10 +
        (6 % 256) * 2 ^ 2 + 7 % 4 ∧
    PIMInstruction.toBinary ⟨6, 44, 5, 6, 3⟩ =
      PIMInstruction.toBinary ⟨70, 300, 5, 6, 7⟩ :=
  ⟨(toBinary_packed_word 70 300 5 6 7).1,
   (toBinary_packed_word 70 300 5 6 7).2 6 44 5 6 3
     (by decide) (by decide) (by decide) (by decide) (by decide)⟩

/-- Arithmetic form of the packed word produced by encode. -/
theorem encode_arith (op d s1 s2 im : Nat) :
    PIMInstructionFormat.encode op d s1 s2 im =
      (op % 64) * 2 ^ 26 + ((d % 256) * 2 ^ 18 +
        ((s1 % 256) * 2 ^ 10 + ((s2 % 256) * 2 ^ 2 + im % 4))) := by
  show ((op &&& 0x3F) <<< 26) ||| ((d &&& 0xFF) <<< 18) |||
      ((s1 &&& 0xFF) <<< 10) ||| ((s2 &&& 0xFF) <<< 2) ||| ((im &&& 0x3) <<< 0) = _
  rw [and_63_eq_mod, and_255_eq_mod, and_255_eq_mod, and_255_eq_mod, and_3_eq_mod]
  simp only [Nat.shiftLeft_eq, Nat.or_assoc]
  have h4 : (im % 4) * 2 ^ 0 < 2 ^ 2 := by omega
  have h10 : (s2 % 256) * 2 ^ 2 + (im % 4) * 2 ^ 0 < 2 ^ 10 := by omega
  have h18 : (s1 % 256) * 2 ^ 10 + ((s2 % 256) * 2 ^ 2 + (im % 4) * 2 ^ 0)
      < 2 ^ 18 := by omega
  have h26 : (d % 256) * 2 ^ 18 +
      ((s1 % 256) * 2 ^ 10 + ((s2 % 256) * 2 ^ 2 + (im % 4) * 2 ^ 0)) < 2 ^ 26 := by omega
  rw [lor_mul_pow_add 2 (s2 % 256) _ h4]
  rw [lor_mul_pow_add 10 (s1 % 256) _ h10]
  rw [lor_mul_pow_add 18 (d % 256) _ h18]
  rw [lor_mul_pow_add 26 (op % 64) _ h26]
  ring

/-- C5: for in-range fields, decoding the encoded word with the documented
shifts and masks returns the original field values. -/
theorem encode_decode_roundtrip (op d s1 s2 im : Nat)
    (hop : op ≤ 63) (hd : d ≤ 255) (hs1 : s1 ≤ 255) (hs2 : s2 ≤ 255)
    (him : im ≤ 3) :
    PIMInstructionFormat.decodeOpcode (PIMInstructionFormat.encode op d s1 s2 im) = op ∧
    PIMInstructionFormat.decodeDest (PIMInstructionFormat.encode op d s1 s2 im) = d ∧
    PIMInstructionFormat.decodeSrc1 (PIMInstructionFormat.encode op d s1 s2 im) = s1 ∧
    PIMInstructionFormat.decodeSrc2 (PIMInstructionFormat.encode op d s1 s2 im) = s2 ∧
    PIMInstructionFormat.decodeImm (PIMInstructionFormat.encode op d s1 s2 im) = im := by
  rw [PIMInstructionFormat.decodeOpcode, PIMInstructionFormat.decodeDest,
    PIMInstructionFormat.decodeSrc1, PIMInstructionFormat.decodeSrc2,
    PIMInstructionFormat.decodeImm, encode_arith]
  show (_ >>> 26) &&& 0x3F = op ∧ (_ >>> 18) &&& 0xFF = d ∧
    (_ >>> 10) &&& 0xFF = s1 ∧ (_ >>> 2) &&& 0xFF = s2 ∧ (_ >>> 0) &&& 0x3 = im
  simp only [Nat.shiftRight_eq_div_pow]
  rw [and_63_eq_mod, and_255_eq_mod, and_255_eq_mod, and_255_eq_mod, and_3_eq_mod]
  refine ⟨?_, ?_, ?_, ?_, ?_⟩ <;> omega

/-- Witness for C5 at the CONFIG instruction with dest 2, src1 8. -/
theorem encode_decode_roundtrip_witness :
    PIMInstructionFormat.decodeOpcode (PIMInstructionFormat.encode 17 2 8 0 0) = 17 ∧
    PIMInstructionFormat.decodeDest (PIMInstructionFormat.encode 17 2 8 0 0) = 2 ∧
    PIMInstructionFormat.decodeSrc1 (PIMInstructionFormat.encode 17 2 8 0 0) = 8 ∧
    PIMInstructionFormat.decodeSrc2 (PIMInstructionFormat.encode 17 2 8 0 0) = 0 ∧
    PIMInstructionFormat.decodeImm (PIMInstructionFormat.encode 17 2 8 0 0) = 0 :=
  encode_decode_roundtrip 17 2 8 0 0 (by decide) (by decide) (by decide)
    (by decide) (by decide)

/-- PIMBackend::generateMatrixLoadInstructions (PIMBackend.cpp lines 62-106):
3 CONFIG instructions, then one LOAD per element of A (row-major), of B, and
of C (zero-initialisation), with the destination addresses of the source. -/
def generateMatrixLoadInstructions (rows cols common : Nat) : List PIMInstruction :=
  [⟨PIM_CONFIG, 0, rows * common, 0, 0⟩,
   ⟨PIM_CONFIG, 1, common * cols, 0, 0⟩,
   ⟨PIM_CONFIG, 2, rows * cols, 0, 0⟩] ++
  ((List.range rows).flatMap fun i => (List.range common).map fun k =>
    ⟨PIM_LOAD, i * common + k, 0, i, k⟩) ++
  ((List.range common).flatMap fun k => (List.range cols).map fun j =>
    ⟨PIM_LOAD, rows * common + (k * cols + j), 0, k, j⟩) ++
  ((List.range rows).flatMap fun i => (List.range cols).map fun j =>
    ⟨PIM_LOAD, rows * common + common * cols + (i * cols + j), 0, i, j⟩)

/-- PIMBackend::generateMatrixMultiplyInstructions (PIMBackend.cpp lines
108-140): the triple loop i-outer, j-middle, k-inner, pushing 6 instructions
per iteration with the a/b/c addresses computed in the loop body. -/
def generateMatrixMultiplyInstructions (rows cols common : Nat) : List PIMInstruction :=
  (List.range rows).flatMap fun i =>
    (List.range cols).flatMap fun j =>
      (List.range common).flatMap fun k =>
        [⟨PIM_MOVE, 0, i * common + k, 0, 0⟩,
         ⟨PIM_MOVE, 1, rows * common + k * cols + j, 0, 0⟩,
         ⟨PIM_MUL, 2, 0, 1, 0⟩,
         ⟨PIM_MOVE, 3, rows * common + common * cols + i * cols + j, 0, 0⟩,
         ⟨PIM_ADD, 3, 3, 2, 0⟩,
         ⟨PIM_MOVE, rows * common + common * cols + i * cols + j, 3, 0, 0⟩]

/-- PIMBackend::generateStoreResultInstructions (PIMBackend.cpp lines
142-162): one STORE per element of C, row-major, whose source address is
computed there as rows*cols + cols*cols + i*cols + j. -/
def generateStoreResultInstructions (rows cols : Nat) : List PIMInstruction :=
  (List.range rows).flatMap fun i => (List.range cols).map fun j =>
    ⟨PIM_STORE, 0, rows * cols + cols * cols + i * cols + j, i, j⟩

/-- Lowering of one matrix multiply with symbolic dimensions: the three
phases emitted in order by PIMBackend::processMatrixMultiplyFunction
(PIMBackend.cpp lines 50-59). -/
def lowerMatrixMultiply (rows cols common : Nat) : List PIMInstruction :=
  generateMatrixLoadInstructions rows cols common ++
  generateMatrixMultiplyInstructions rows cols common ++
  generateStoreResultInstructions rows cols

/-- Length of a flatMap whose blocks all have the same length. -/
theorem length_flatMap_const {α β : Type} (g : β → List α) (c : Nat)
    (hg : ∀ b, (g b).length = c) :
    ∀ l : List β, (l.flatMap g).length = l.length * c := by
  intro l
  induction l with
  | nil => simp
  | cons b t ih =>
    simp only [List.flatMap_cons, List.length_append, ih, List.length_cons, hg b]
    ring

/-- Dropping whole blocks of a constant-block-length flatMap lands at the
start of the block of the corresponding element. -/
theorem drop_flatMap_const {α β : Type} (g : β → List α) (c : Nat)
    (hg : ∀ b, (g b).length = c) :
    ∀ (l : List β) (i : Nat) (hi : i < l.length),
      ∃ t, (l.flatMap g).drop (c * i) = g (l.get ⟨i, hi⟩) ++ t := by
  intro l
  induction l with
  | nil => intro i hi; simp at hi
  | cons b bs ih =>
    intro i hi
    cases i with
    | zero => exact ⟨bs.flatMap g, by simp [List.flatMap_cons]⟩
    | succ n =>
      have hn : n < bs.length := by simpa using hi
      obtain ⟨t, ht⟩ := ih n hn
      refine ⟨t, ?_⟩
      have hsplit : c * (n + 1) = (g b).length + c * n := by rw [hg b]; ring
      rw [List.flatMap_cons, hsplit, List.drop_append, ht]
      rfl

/-- Inside a constant-block-length flatMap over List.range, a window that
stays within block i reads from block i. -/
theorem flatMap_range_block {α : Type} (f : Nat → List α) (c n i r t : Nat)
    (hi : i < n) (hc : ∀ j, (f j).length = c) (hrt : r + t ≤ c) :
    (((List.range n).flatMap f).drop (c * i + r)).take t = ((f i).drop r).take t := by
  have hi' : i < (List.range n).length := by simpa using hi
  obtain ⟨s, hs⟩ := drop_flatMap_const f c hc (List.range n) i hi'
  have hget : (List.range n).get ⟨i, hi'⟩ = i := by simp
  rw [hget] at hs
  have hdd : ((List.range n).flatMap f).drop (c * i + r) =
      (((List.range n).flatMap f).drop (c * i)).drop r := by
    rw [List.drop_drop]
  rw [hdd, hs]
  have hr : r ≤ (f i).length := by rw [hc i]; omega
  rw [List.drop_append_of_le_length hr]
  have ht : t ≤ ((f i).drop r).length := by
    rw [List.length_drop, hc i]; omega
  rw [List.take_append_of_le_length ht]

/-- Length of a flatMap over List.range with constant block length. -/
theorem length_range_flatMap_const {α : Type} {f : Nat → List α} (n c : Nat)
    (hf : ∀ i, (f i).length = c) :
    ((List.range n).flatMap f).length = n * c := by
  rw [length_flatMap_const f c hf (List.range n)]
  simp

/-- Windows that stay inside one block of a constant-block flatMap are
bounded by the whole: c*x + r + t is at most n*c when x < n and r + t is
at most c. -/
theorem mul_block_bound (c x n r t : Nat) (hx : x < n) (hrt : r + t ≤ c) :
    c * x + r + t ≤ n * c :=
  calc c * x + r + t = c * x + (r + t) := by ring
    _ ≤ c * x + c := Nat.add_le_add_left hrt _
    _ = c * (x + 1) := by ring
    _ ≤ c * n := Nat.mul_le_mul_left c hx
    _ = n * c := by ring

/-- Length of the configure-and-load phase. -/
theorem generateMatrixLoadInstructions_length (rows cols common : Nat) :
    (generateMatrixLoadInstructions rows cols common).length =
      3 + rows * common + common * cols + rows * cols := by
  have hA : ((List.range rows).flatMap fun i => (List.range common).map fun k =>
      (⟨PIM_LOAD, i * common + k, 0, i, k⟩ : PIMInstruction)).length = rows * common :=
    length_range_flatMap_const rows common (fun i => by simp)
  have hB : ((List.range common).flatMap fun k => (List.range cols).map fun j =>
      (⟨PIM_LOAD, rows * common + (k * cols + j), 0, k, j⟩ : PIMInstruction)).length =
      common * cols :=
    length_range_flatMap_const common cols (fun k => by simp)
  have hC : ((List.range rows).flatMap fun i => (List.range cols).map fun j =>
      (⟨PIM_LOAD, rows * common + common * cols + (i * cols + j), 0, i, j⟩ :
        PIMInstruction)).length = rows * cols :=
    length_range_flatMap_const rows cols (fun i => by simp)
  simp only [generateMatrixLoadInstructions, List.length_append, hA, hB, hC,
    List.length_cons, List.length_nil]

/-- Length of the compute phase. -/
theorem generateMatrixMultiplyInstructions_length (rows cols common : Nat) :
    (generateMatrixMultiplyInstructions rows cols common).length =
      rows * (cols * (common * 6)) := by
  simp only [generateMatrixMultiplyInstructions]
  exact length_range_flatMap_const rows (cols * (common * 6)) (fun i =>
    length_range_flatMap_const cols (common * 6) (fun j =>
      length_range_flatMap_const common 6 (fun k => rfl)))

/-- Length of the store phase. -/
theorem generateStoreResultInstructions_length (rows cols : Nat) :
    (generateStoreResultInstructions rows cols).length = rows * cols := by
  simp only [generateStoreResultInstructions]
  exact length_range_flatMap_const rows cols (fun i => by simp)

/-- C2: for all dimensions at least 1, lowering one matrix multiply emits
exactly 3 + rows*common + common*cols + rows*cols + 6*rows*cols*common +
rows*cols instructions. -/
theorem lowerMatrixMultiply_count (rows cols common : Nat)
    (_h1 : 1 ≤ rows) (_h2 : 1 ≤ cols) (_h3 : 1 ≤ common) :
    (lowerMatrixMultiply rows cols common).length =
      3 + rows * common + common * cols + rows * cols +
        6 * rows * cols * common + rows * cols := by
  simp only [lowerMatrixMultiply, List.length_append,
    generateMatrixLoadInstructions_length, generateMatrixMultiplyInstructions_length,
    generateStoreResultInstructions_length]
  ring

/-- Witness for C2 at rows = cols = common = 2: the 67-instruction
end-to-end example of the specification. -/
theorem lowerMatrixMultiply_count_witness :
    (1 ≤ 2) ∧ (lowerMatrixMultiply 2 2 2).length =
      3 + 2 * 2 + 2 * 2 + 2 * 2 + 6 * 2 * 2 * 2 + 2 * 2 :=
  ⟨by decide, lowerMatrixMultiply_count 2 2 2 (by decide) (by decide) (by decide)⟩

/-- C3: in the compute phase the loops run i-outer (rows), j-middle (cols),
k-inner (common), and every (i,j,k) iteration contributes exactly the 6
instructions MOVE R0 from A[i][k], MOVE R1 from B[k][j], MUL R2 = R0*R1,
MOVE R3 from C[i][j], ADD R3 = R3+R2, MOVE R3 to C[i][j], in this order and
at stream offset 6*((i*cols+j)*common+k); C[i][j] is reloaded and re-stored
on every k-iteration. -/
theorem multiply_phase_schedule (rows cols common i j k : Nat)
    (hi : i < rows) (hj : j < cols) (hk : k < common) :
    ((generateMatrixMultiplyInstructions rows cols common).drop
        (6 * ((i * cols + j) * common + k))).take 6 =
      [⟨PIM_MOVE, 0, i * common + k, 0, 0⟩,
       ⟨PIM_MOVE, 1, rows * common + k * cols + j, 0, 0⟩,
       ⟨PIM_MUL, 2, 0, 1, 0⟩,
       ⟨PIM_MOVE, 3, rows * common + common * cols + i * cols + j, 0, 0⟩,
       ⟨PIM_ADD, 3, 3, 2, 0⟩,
       ⟨PIM_MOVE, rows * common + common * cols + i * cols + j, 3, 0, 0⟩] := by
  have hc2 : ∀ i2 j2 : Nat, (((List.range common).flatMap fun k2 =>
      [(⟨PIM_MOVE, 0, i2 * common + k2, 0, 0⟩ : PIMInstruction),
       ⟨PIM_MOVE, 1, rows * common + k2 * cols + j2, 0, 0⟩,
       ⟨PIM_MUL, 2, 0, 1, 0⟩,
       ⟨PIM_MOVE, 3, rows * common + common * cols + i2 * cols + j2, 0, 0⟩,
       ⟨PIM_ADD, 3, 3, 2, 0⟩,
       ⟨PIM_MOVE, rows * common + common * cols + i2 * cols + j2, 3, 0, 0⟩]) :
        List PIMInstruction).length = common * 6 :=
    fun i2 j2 => length_range_flatMap_const common 6 (fun k2 => rfl)
  have hc1 : ∀ i2 : Nat, (((List.range cols).flatMap fun j2 =>
      (List.range common).flatMap fun k2 =>
      [(⟨PIM_MOVE, 0, i2 * common + k2, 0, 0⟩ : PIMInstruction),
       ⟨PIM_MOVE, 1, rows * common + k2 * cols + j2, 0, 0⟩,
       ⟨PIM_MUL, 2, 0, 1, 0⟩,
       ⟨PIM_MOVE, 3, rows * common + common * cols + i2 * cols + j2, 0, 0⟩,
       ⟨PIM_ADD, 3, 3, 2, 0⟩,
       ⟨PIM_MOVE, rows * common + common * cols + i2 * cols + j2, 3, 0, 0⟩]) :
        List PIMInstruction).length = cols * (common * 6) :=
    fun i2 => length_range_flatMap_const cols (common * 6) (fun j2 => hc2 i2 j2)
  have hb3 : 0 + 6 ≤ 6 := by omega
  have hb2 : 6 * k + 0 + 6 ≤ common * 6 := by omega
  have hb1 : (common * 6) * j + (6 * k + 0) + 6 ≤ cols * (common * 6) :=
    mul_block_bound (common * 6) j cols (6 * k + 0) 6 hj hb2
  have step1 : ((generateMatrixMultiplyInstructions rows cols common).drop
      ((cols * (common * 6)) * i + ((common * 6) * j + (6 * k + 0)))).take 6 =
      (((List.range cols).flatMap fun j2 =>
        (List.range common).flatMap fun k2 =>
        [(⟨PIM_MOVE, 0, i * common + k2, 0, 0⟩ : PIMInstruction),
         ⟨PIM_MOVE, 1, rows * common + k2 * cols + j2, 0, 0⟩,
         ⟨PIM_MUL, 2, 0, 1, 0⟩,
         ⟨PIM_MOVE, 3, rows * common + common * cols + i * cols + j2, 0, 0⟩,
         ⟨PIM_ADD, 3, 3, 2, 0⟩,
         ⟨PIM_MOVE, rows * common + common * cols + i * cols + j2, 3, 0, 0⟩]).drop
        ((common * 6) * j + (6 * k + 0))).take 6 := by
    simp only [generateMatrixMultiplyInstructions]
    exact flatMap_range_block _ (cols * (common * 6)) rows i
      ((common * 6) * j + (6 * k + 0)) 6 hi hc1 hb1
  have step2 : (((List.range cols).flatMap fun j2 =>
      (List.range common).flatMap fun k2 =>
      [(⟨PIM_MOVE, 0, i * common + k2, 0, 0⟩ : PIMInstruction),
       ⟨PIM_MOVE, 1, rows * common + k2 * cols + j2, 0, 0⟩,
       ⟨PIM_MUL, 2, 0, 1, 0⟩,
       ⟨PIM_MOVE, 3, rows * common + common * cols + i * cols + j2, 0, 0⟩,
       ⟨PIM_ADD, 3, 3, 2, 0⟩,
       ⟨PIM_MOVE, rows * common + common * cols + i * cols + j2, 3, 0, 0⟩]).drop
      ((common * 6) * j + (6 * k + 0))).take 6 =
      (((List.range common).flatMap fun k2 =>
        [(⟨PIM_MOVE, 0, i * common + k2, 0, 0⟩ : PIMInstruction),
         ⟨PIM_MOVE, 1, rows * common + k2 * cols + j, 0, 0⟩,
         ⟨PIM_MUL, 2, 0, 1, 0⟩,
         ⟨PIM_MOVE, 3, rows * common + common * cols + i * cols + j, 0, 0⟩,
         ⟨PIM_ADD, 3, 3, 2, 0⟩,
         ⟨PIM_MOVE, rows * common + common * cols + i * cols + j, 3, 0, 0⟩]).drop
        (6 * k + 0)).take 6 :=
    flatMap_range_block _ (common * 6) cols j (6 * k + 0) 6 hj (hc2 i) hb2
  have step3 : (((List.range common).flatMap fun k2 =>
      [(⟨PIM_MOVE, 0, i * common + k2, 0, 0⟩ : PIMInstruction),
       ⟨PIM_MOVE, 1, rows * common + k2 * cols + j, 0, 0⟩,
       ⟨PIM_MUL, 2, 0, 1, 0⟩,
       ⟨PIM_MOVE, 3, rows * common + common * cols + i * cols + j, 0, 0⟩,
       ⟨PIM_ADD, 3, 3, 2, 0⟩,
       ⟨PIM_MOVE, rows * common + common * cols + i * cols + j, 3, 0, 0⟩]).drop
      (6 * k + 0)).take 6 =
      (([(⟨PIM_MOVE, 0, i * common + k, 0, 0⟩ : PIMInstruction),
         ⟨PIM_MOVE, 1, rows * common + k * cols + j, 0, 0⟩,
         ⟨PIM_MUL, 2, 0, 1, 0⟩,
         ⟨PIM_MOVE, 3, rows * common + common * cols + i * cols + j, 0, 0⟩,
         ⟨PIM_ADD, 3, 3, 2, 0⟩,
         ⟨PIM_MOVE, rows * common + common * cols + i * cols + j, 3, 0, 0⟩]).drop
        0).take 6 :=
    flatMap_range_block _ 6 common k 0 6 hk (fun k2 => rfl) hb3
  have hpos : 6 * ((i * cols + j) * common + k) =
      (cols * (common * 6)) * i + ((common * 6) * j + (6 * k + 0)) := by ring
  rw [hpos, step1, step2, step3]
  rfl

/-- Witness for C3 at rows = cols = common = 2, (i,j,k) = (1,0,1):
offset 6*((1*2+0)*2+1) = 30 into the 48-instruction compute phase. -/
theorem multiply_phase_schedule_witness :
    ((generateMatrixMultiplyInstructions 2 2 2).drop
        (6 * ((1 * 2 + 0) * 2 + 1))).take 6 =
      [⟨PIM_MOVE, 0, 1 * 2 + 1, 0, 0⟩,
       ⟨PIM_MOVE, 1, 2 * 2 + 1 * 2 + 0, 0, 0⟩,
       ⟨PIM_MUL, 2, 0, 1, 0⟩,
       ⟨PIM_MOVE, 3, 2 * 2 + 2 * 2 + 1 * 2 + 0, 0, 0⟩,
       ⟨PIM_ADD, 3, 3, 2, 0⟩,
       ⟨PIM_MOVE, 2 * 2 + 2 * 2 + 1 * 2 + 0, 3, 0, 0⟩] :=
  multiply_phase_schedule 2 2 2 1 0 1 (by decide) (by decide) (by decide)

/-- C1: divergence of the store phase's address formula, evaluated at the
failing input rows = 1, cols = 2, common = 3. The compute phase writes
C[0][0] with its final MOVE (stream index 5) at destination address
rows*common + common*cols + 0 = 9, but the STORE emitted for element (0,0)
reads source address rows*cols + cols*cols + 0 = 6 (PIMBackend.cpp line
152), not 9: the store phase does not use the load/compute address formula,
contradicting the code's own comment that it reads the address of C[i][j]. -/
theorem store_phase_address_divergence :
    ((generateMatrixMultiplyInstructions 1 2 3)[5]?).map PIMInstruction.dest =
      some (1 * 3 + 3 * 2 + 0 * 2 + 0) ∧
    ((generateStoreResultInstructions 1 2)[0]?).map PIMInstruction.src1 =
      some (1 * 2 + 2 * 2 + 0 * 2 + 0) ∧
    (1 * 3 + 3 * 2 + 0 * 2 + 0 : Nat) ≠ 1 * 2 + 2 * 2 + 0 * 2 + 0 := by
  decide

/-- Minimal model of the llvm::Module input: an ordered list of functions,
each carrying a name and whether it is a bare declaration. These are the
only aspects of the module the verified code inspects. -/
structure LLVMFunction where
  name : String
  isDeclaration : Bool
deriving DecidableEq, Repr

/-- Model of llvm::Module as its list of functions. -/
structure LLVMModule where
  functions : List LLVMFunction
deriving DecidableEq, Repr

/-- MemoryMapper::detectMatrixDimensions (MemoryMapper.cpp lines 43-57):
ignores the module and returns the fixed table A, B, C, each {2, 2}. -/
def detectMatrixDimensions (_module : LLVMModule) : List (String × (Nat × Nat)) :=
  [("A", (2, 2)), ("B", (2, 2)), ("C", (2, 2))]

/-- PIMBackend::processMatrixMultiplyFunction (PIMBackend.cpp lines 37-60):
fixes rows = cols = common = 2 regardless of the function body and emits
the load, compute and store phases in order. -/
def processMatrixMultiplyFunction (_function : LLVMFunction) : List PIMInstruction :=
  lowerMatrixMultiply 2 2 2

/-- PIMBackend::generatePIMInstructions (PIMBackend.cpp lines 17-35):
processes every function that is not a bare declaration, in order,
appending each function's instructions to one stream. -/
def generatePIMInstructions (module : LLVMModule) : List PIMInstruction :=
  (module.functions.filter fun f => !f.isDeclaration).flatMap
    processMatrixMultiplyFunction

/-- C10: dimension detection returns the constant descriptor table for every
input module, and the backend lowers every defined function with the fixed
dimension triple (2,2,2) — 67 instructions per defined function — never
deriving dimensions from the input. -/
theorem fixed_dimensions_everywhere :
    (∀ m : LLVMModule, detectMatrixDimensions m =
      [("A", (2, 2)), ("B", (2, 2)), ("C", (2, 2))]) ∧
    (∀ f : LLVMFunction, processMatrixMultiplyFunction f =
      lowerMatrixMultiply 2 2 2) ∧
    (∀ f : LLVMFunction, (processMatrixMultiplyFunction f).length = 67) ∧
    (∀ m : LLVMModule, generatePIMInstructions m =
      (m.functions.filter fun f => !f.isDeclaration).flatMap fun _ =>
        lowerMatrixMultiply 2 2 2) :=
  ⟨fun _ => rfl, fun _ => rfl,
   fun _ => by show (lowerMatrixMultiply 2 2 2).length = 67; decide,
   fun _ => rfl⟩

/-- Decimal rendering of an unsigned value, as stream insertion does. -/
def decStr (n : Nat) : String := toString n

/-- Lowercase hexadecimal digit, as std::hex produces. -/
def hexDigit (n : Nat) : Char :=
  if n < 10 then Char.ofNat (48 + n) else Char.ofNat (87 + n)

/-- Hexadecimal rendering used by PIMInstruction::toString (line 108):
std::hex with setw(8) and setfill of 0 prints a value below 2^32 as exactly
8 zero-padded lowercase hex digits, most significant first. -/
def hex8 (n : Nat) : String :=
  String.mk [hexDigit (n / 16 ^ 7 % 16), hexDigit (n / 16 ^ 6 % 16),
             hexDigit (n / 16 ^ 5 % 16), hexDigit (n / 16 ^ 4 % 16),
             hexDigit (n / 16 ^ 3 % 16), hexDigit (n / 16 ^ 2 % 16),
             hexDigit (n / 16 % 16), hexDigit (n % 16)]

/-- Mnemonic switch of PIMInstruction::toString (PIMInstruction.cpp lines
59-79); the default case renders UNKNOWN. -/
def opcodeName (op : Nat) : String :=
  if op = PIM_NOP then "NOP"
  else if op = PIM_LOAD then "LOAD"
  else if op = PIM_STORE then "STORE"
  else if op = PIM_MOVE then "MOVE"
  else if op = PIM_ADD then "ADD"
  else if op = PIM_SUB then "SUB"
  else if op = PIM_MUL then "MUL"
  else if op = PIM_DIV then "DIV"
  else if op = PIM_AND then "AND"
  else if op = PIM_OR then "OR"
  else if op = PIM_XOR then "XOR"
  else if op = PIM_NOT then "NOT"
  else if op = PIM_SHL then "SHL"
  else if op = PIM_SHR then "SHR"
  else if op = PIM_JUMP then "JUMP"
  else if op = PIM_JUMPZ then "JUMPZ"
  else if op = PIM_JUMPNZ then "JUMPNZ"
  else if op = PIM_CONFIG then "CONFIG"
  else "UNKNOWN"

/-- PIMInstruction::toString (PIMInstruction.cpp lines 55-111): mnemonic,
then operands by opcode class (the if-else chain of the source, whose final
else catches every opcode not named before it), then the hex suffix. -/
def PIMInstruction.toString (ins : PIMInstruction) : String :=
  let base := opcodeName ins.opcode
  let withOperands :=
    if ins.opcode = PIM_NOP then base
    else if ins.opcode = PIM_CONFIG then
      base ++ " " ++ decStr ins.dest ++ ", " ++ decStr ins.src1
    else if ins.opcode = PIM_LOAD ∨ ins.opcode = PIM_STORE then
      let s := base ++ " " ++ decStr ins.dest ++ ", " ++ decStr ins.src1
      if ins.src2 ≠ 0 ∨ ins.imm ≠ 0 then
        s ++ " [" ++ decStr ins.src2 ++ ", " ++ decStr ins.imm ++ "]"
      else s
    else if ins.opcode = PIM_NOT ∨ ins.opcode = PIM_JUMP then
      base ++ " " ++ decStr ins.dest
    else if ins.opcode = PIM_JUMPZ ∨ ins.opcode = PIM_JUMPNZ then
      base ++ " " ++ decStr ins.dest ++ ", " ++ decStr ins.src1
    else
      let s := base ++ " " ++ decStr ins.dest ++ ", " ++ decStr ins.src1 ++
        ", " ++ decStr ins.src2
      if ins.imm ≠ 0 then s ++ ", " ++ decStr ins.imm else s
  withOperands ++ " ; 0x" ++ hex8 ins.toBinary

/-- C6: operand rendering by opcode class, exactly as specified: NOP bare;
CONFIG dest, src1; LOAD/STORE dest, src1 with a bracketed src2, imm suffix
iff src2 or imm is non-zero; NOT/JUMP dest only; JUMPZ/JUMPNZ dest, src1;
the ten remaining binary ops dest, src1, src2 with an imm suffix iff imm is
non-zero; and every rendering ends with the 8-digit hex of the encoding. -/
theorem toString_rendering (ins : PIMInstruction) :
    (ins.opcode = PIM_NOP →
      PIMInstruction.toString ins = "NOP" ++ " ; 0x" ++ hex8 ins.toBinary) ∧
    (ins.opcode = PIM_CONFIG →
      PIMInstruction.toString ins = "CONFIG" ++ " " ++ decStr ins.dest ++ ", " ++
        decStr ins.src1 ++ " ; 0x" ++ hex8 ins.toBinary) ∧
    (ins.opcode = PIM_LOAD ∨ ins.opcode = PIM_STORE →
      PIMInstruction.toString ins = opcodeName ins.opcode ++ " " ++
        decStr ins.dest ++ ", " ++ decStr ins.src1 ++
        (if ins.src2 ≠ 0 ∨ ins.imm ≠ 0 then
          " [" ++ decStr ins.src2 ++ ", " ++ decStr ins.imm ++ "]"
        else "") ++ " ; 0x" ++ hex8 ins.toBinary) ∧
    (ins.opcode = PIM_NOT ∨ ins.opcode = PIM_JUMP →
      PIMInstruction.toString ins = opcodeName ins.opcode ++ " " ++
        decStr ins.dest ++ " ; 0x" ++ hex8 ins.toBinary) ∧
    (ins.opcode = PIM_JUMPZ ∨ ins.opcode = PIM_JUMPNZ →
      PIMInstruction.toString ins = opcodeName ins.opcode ++ " " ++
        decStr ins.dest ++ ", " ++ decStr ins.src1 ++ " ; 0x" ++
        hex8 ins.toBinary) ∧
    (ins.opcode = PIM_ADD ∨ ins.opcode = PIM_SUB ∨ ins.opcode = PIM_MUL ∨
        ins.opcode = PIM_DIV ∨ ins.opcode = PIM_AND ∨ ins.opcode = PIM_OR ∨
        ins.opcode = PIM_XOR ∨ ins.opcode = PIM_SHL ∨ ins.opcode = PIM_SHR ∨
        ins.opcode = PIM_MOVE →
      PIMInstruction.toString ins = opcodeName ins.opcode ++ " " ++
        decStr ins.dest ++ ", " ++ decStr ins.src1 ++ ", " ++ decStr ins.src2 ++
        (if ins.imm ≠ 0 then ", " ++ decStr ins.imm else "") ++ " ; 0x" ++
        hex8 ins.toBinary) ∧
    (∃ p : String, PIMInstruction.toString ins =
      p ++ " ; 0x" ++ hex8 ins.toBinary ∧ (hex8 ins.toBinary).length = 8) := by
  refine ⟨?_, ?_, ?_, ?_, ?_, ?_, ⟨_, rfl, rfl⟩⟩
  · intro h
    simp [PIMInstruction.toString, opcodeName, h, String.append_assoc]
  · intro h
    simp [PIMInstruction.toString, opcodeName, h, String.append_assoc]
  · intro h
    by_cases hc : ins.src2 ≠ 0 ∨ ins.imm ≠ 0 <;>
      rcases h with h | h <;>
      simp [PIMInstruction.toString, opcodeName, h, hc, String.append_assoc]
  · intro h
    rcases h with h | h <;>
      simp [PIMInstruction.toString, opcodeName, h, String.append_assoc]
  · intro h
    rcases h with h | h <;>
      simp [PIMInstruction.toString, opcodeName, h, String.append_assoc]
  · intro h
    by_cases hc : ins.imm ≠ 0 <;>
      rcases h with h | h | h | h | h | h | h | h | h | h <;>
      simp [PIMInstruction.toString, opcodeName, h, hc, String.append_assoc]

/-- Witness for C6 at the LOAD instruction with dest 5, src1 7 and zero
src2 and imm, where no bracketed suffix appears. -/
theorem toString_rendering_witness :
    PIMInstruction.toString ⟨PIM_LOAD, 5, 7, 0, 0⟩ =
      opcodeName PIM_LOAD ++ " " ++ decStr 5 ++ ", " ++ decStr 7 ++
        (if (0 : Nat) ≠ 0 ∨ (0 : Nat) ≠ 0 then
          " [" ++ decStr 0 ++ ", " ++ decStr 0 ++ "]"
        else "") ++ " ; 0x" ++ hex8 (PIMInstruction.toBinary ⟨PIM_LOAD, 5, 7, 0, 0⟩) :=
  (toString_rendering ⟨PIM_LOAD, 5, 7, 0, 0⟩).2.2.1 (Or.inl rfl)

/-- C7: an opcode value outside the 18 defined ones renders a string that
starts with UNKNOWN and ends with the 8-digit hex suffix of the (32-bit
bounded) encoding; disassembly is total, so it never fails. -/
theorem toString_unknown_opcode (ins : PIMInstruction) (h : 18 ≤ ins.opcode) :
    ∃ mid : String,
      PIMInstruction.toString ins =
        "UNKNOWN" ++ mid ++ " ; 0x" ++ hex8 ins.toBinary ∧
      (hex8 ins.toBinary).length = 8 ∧ ins.toBinary < 2 ^ 32 := by
  have h0 : ¬ins.opcode = PIM_NOP := by show ¬ins.opcode = 0; omega
  have h1 : ¬ins.opcode = PIM_LOAD := by show ¬ins.opcode = 1; omega
  have h2 : ¬ins.opcode = PIM_STORE := by show ¬ins.opcode = 2; omega
  have h3 : ¬ins.opcode = PIM_MOVE := by show ¬ins.opcode = 3; omega
  have h4 : ¬ins.opcode = PIM_ADD := by show ¬ins.opcode = 4; omega
  have h5 : ¬ins.opcode = PIM_SUB := by show ¬ins.opcode = 5; omega
  have h6 : ¬ins.opcode = PIM_MUL := by show ¬ins.opcode = 6; omega
  have h7 : ¬ins.opcode = PIM_DIV := by show ¬ins.opcode = 7; omega
  have h8 : ¬ins.opcode = PIM_AND := by show ¬ins.opcode = 8; omega
  have h9 : ¬ins.opcode = PIM_OR := by show ¬ins.opcode = 9; omega
  have h10 : ¬ins.opcode = PIM_XOR := by show ¬ins.opcode = 10; omega
  have h11 : ¬ins.opcode = PIM_NOT := by show ¬ins.opcode = 11; omega
  have h12 : ¬ins.opcode = PIM_SHL := by show ¬ins.opcode = 12; omega
  have h13 : ¬ins.opcode = PIM_SHR := by show ¬ins.opcode = 13; omega
  have h14 : ¬ins.opcode = PIM_JUMP := by show ¬ins.opcode = 14; omega
  have h15 : ¬ins.opcode = PIM_JUMPZ := by show ¬ins.opcode = 15; omega
  have h16 : ¬ins.opcode = PIM_JUMPNZ := by show ¬ins.opcode = 16; omega
  have h17 : ¬ins.opcode = PIM_CONFIG := by show ¬ins.opcode = 17; omega
  have hbin : PIMInstruction.toBinary ins =
      (ins.opcode % 64) * 2 ^ 26 + ((ins.dest % 256) * 2 ^ 18 +
        ((ins.src1 % 256) * 2 ^ 10 + ((ins.src2 % 256) * 2 ^ 2 + ins.imm % 4))) :=
    toBinary_arith ins.opcode ins.dest ins.src1 ins.src2 ins.imm
  refine ⟨" " ++ decStr ins.dest ++ ", " ++ decStr ins.src1 ++ ", " ++
    decStr ins.src2 ++ (if ins.imm ≠ 0 then ", " ++ decStr ins.imm else ""),
    ?_, rfl, by omega⟩
  by_cases hImm : ins.imm ≠ 0 <;>
    simp [PIMInstruction.toString, opcodeName, h0, h1, h2, h3, h4, h5, h6, h7,
      h8, h9, h10, h11, h12, h13, h14, h15, h16, h17, hImm,
      String.append_assoc] <;>
    rw [← String.append_assoc "UNKNOWN" " "] <;> rfl

/-- Witness for C7 at the undefined opcode value 99. -/
theorem toString_unknown_opcode_witness :
    ∃ mid : String,
      PIMInstruction.toString ⟨99, 1, 2, 3, 0⟩ =
        "UNKNOWN" ++ mid ++ " ; 0x" ++
          hex8 (PIMInstruction.toBinary ⟨99, 1, 2, 3, 0⟩) ∧
      (hex8 (PIMInstruction.toBinary ⟨99, 1, 2, 3, 0⟩)).length = 8 ∧
      PIMInstruction.toBinary ⟨99, 1, 2, 3, 0⟩ < 2 ^ 32 :=
  toString_unknown_opcode ⟨99, 1, 2, 3, 0⟩ (by decide)

/-- Index operand of a getelementptr as the translation pass classifies it
(MemoryMapper.cpp lines 121-132): either a statically known constant or a
dynamically computed value. -/
inductive IndexVal where
  | const : Nat → IndexVal
  | dynamic : IndexVal
deriving DecidableEq, Repr

/-- Memory access as inspected by MemoryMapper::transformMemoryAccess
(MemoryMapper.cpp lines 77-160): the pointer operand of a load or store.
When the pointer is a getelementptr whose base is a named global variable,
baseGlobal holds that name (lines 91-108); otherwise it is none and the
access is skipped. indices lists the getelementptr indices in order. -/
structure MemAccess where
  baseGlobal : Option String
  indices : List IndexVal
deriving DecidableEq, Repr

/-- Lookup in the descriptor table, as matrixInfo.find (MemoryMapper.cpp
line 111): first entry with the given name, if any. -/
def lookupMatrix (matrixInfo : List (String × (Nat × Nat))) (name : String) :
    Option (Nat × Nat) :=
  match matrixInfo with
  | [] => none
  | (n, dims) :: rest => if n = name then some dims else lookupMatrix rest name

/-- MemoryMapper::transformMemoryAccess (MemoryMapper.cpp lines 77-160):
rewrite an access that targets a catalogued matrix through exactly two
statically-constant indices into the access through indices 0 and
row*cols + col (lines 134-150); leave every other access untouched. -/
def transformMemoryAccess (matrixInfo : List (String × (Nat × Nat)))
    (a : MemAccess) : MemAccess :=
  match a.baseGlobal with
  | none => a
  | some name =>
    match lookupMatrix matrixInfo name with
    | none => a
    | some (_rows, cols) =>
      match a.indices with
      | [IndexVal.const rowVal, IndexVal.const colVal] =>
        { a with indices := [IndexVal.const 0, IndexVal.const (rowVal * cols + colVal)] }
      | _ => a

/-- MemoryMapper::mapArrayAccesses (MemoryMapper.cpp lines 59-75): collect
the accesses in source order, then transform each one exactly once. -/
def mapArrayAccesses (matrixInfo : List (String × (Nat × Nat)))
    (accesses : List MemAccess) : List MemAccess :=
  accesses.map (transformMemoryAccess matrixInfo)

/-- C8: an access to catalogued matrix M through constant indices (row, col)
is rewritten to the linear index row*cols + col relative to M's base, where
cols is M's declared column count. -/
theorem transform_linear_address (matrixInfo : List (String × (Nat × Nat)))
    (name : String) (rows cols rowVal colVal : Nat) (a : MemAccess)
    (hbase : a.baseGlobal = some name)
    (hlook : lookupMatrix matrixInfo name = some (rows, cols))
    (hidx : a.indices = [IndexVal.const rowVal, IndexVal.const colVal]) :
    transformMemoryAccess matrixInfo a =
      { baseGlobal := some name,
        indices := [IndexVal.const 0, IndexVal.const (rowVal * cols + colVal)] } := by
  obtain ⟨b, idx⟩ := a
  simp only at hbase hidx
  subst hbase hidx
  simp [transformMemoryAccess, hlook]

/-- Witness for C8: the specification's example, translate of A[1][1] with
the 2 by 2 descriptor table produced by dimension detection, giving linear
address 1*2+1 = 3. -/
theorem transform_linear_address_witness :
    transformMemoryAccess (detectMatrixDimensions ⟨[]⟩)
        ⟨some "A", [IndexVal.const 1, IndexVal.const 1]⟩ =
      { baseGlobal := some "A",
        indices := [IndexVal.const 0, IndexVal.const (1 * 2 + 1)] } :=
  transform_linear_address (detectMatrixDimensions ⟨[]⟩) "A" 2 2 1 1
    ⟨some "A", [IndexVal.const 1, IndexVal.const 1]⟩ rfl rfl rfl

/-- C9: the translation pass is idempotent: transforming an already
transformed access changes nothing (a rewritten access has constant indices
0 and linearIdx, and 0*cols + linearIdx = linearIdx), so running the pass
twice over any access list equals running it once. -/
theorem transform_idempotent (matrixInfo : List (String × (Nat × Nat))) :
    (∀ a : MemAccess,
      transformMemoryAccess matrixInfo (transformMemoryAccess matrixInfo a) =
        transformMemoryAccess matrixInfo a) ∧
    ∀ accesses : List MemAccess,
      mapArrayAccesses matrixInfo (mapArrayAccesses matrixInfo accesses) =
        mapArrayAccesses matrixInfo accesses := by
  have hpoint : ∀ a : MemAccess,
      transformMemoryAccess matrixInfo (transformMemoryAccess matrixInfo a) =
        transformMemoryAccess matrixInfo a := by
    intro a
    obtain ⟨b, idx⟩ := a
    cases b with
    | none => rfl
    | some name =>
      cases hlook : lookupMatrix matrixInfo name with
      | none => simp [transformMemoryAccess, hlook]
      | some dims =>
        obtain ⟨rows, cols⟩ := dims
        match idx with
        | [IndexVal.const rowVal, IndexVal.const colVal] =>
          simp [transformMemoryAccess, hlook]
        | [] => simp [transformMemoryAccess, hlook]
        | [x] => simp [transformMemoryAccess, hlook]
        | IndexVal.dynamic :: y :: rest => simp [transformMemoryAccess, hlook]
        | x :: IndexVal.dynamic :: rest => simp [transformMemoryAccess, hlook]
        | x :: y :: z :: rest => simp [transformMemoryAccess, hlook]
  refine ⟨hpoint, fun accesses => ?_⟩
  simp only [mapArrayAccesses, List.map_map]
  exact List.map_congr_left (fun a _ => hpoint a)
